import Mathlib

/-!
Verification of the PGVendorManager repository core: the Vendor entity and
its reset-time model, the time-input clamping rules, the persistence
round-trip, and the clustering algorithm.

Timestamps (`datetime`) are modelled as integers counting microseconds
since the epoch, the resolution of Python's `datetime`; durations
(`timedelta`) are integers in the same unit.  `datetime.isoformat` and
`datetime.fromisoformat` are modelled as an injective decimal rendering of
the microsecond count together with its exact parser: Python guarantees
`fromisoformat(d.isoformat()) == d` exactly, and the model preserves that
round-trip property.  `datetime.fromtimestamp(float(s))` is modelled by a
decimal parser accepting an optional sign, digits and one decimal point,
scaled from seconds to microseconds.

The GUI source files contain two near-identical variants
(`PGVendorManager.py` and `vendor_tracker7.py`); where they diverge the
embedding follows `PGVendorManager.py`, the fuller variant whose semantics
the specification describes.
-/

/-- One minute in microseconds (`timedelta(minutes=1)`). -/
def usecPerMinute : Int := 60000000

/-- One hour in microseconds (`timedelta(hours=1)`). -/
def usecPerHour : Int := 3600000000

/-- One day in microseconds (`timedelta(days=1)`). -/
def usecPerDay : Int := 86400000000

/-- `timedelta(days=d, hours=h, minutes=m)` as a microsecond count. -/
def timedelta (d h m : Int) : Int :=
  d * usecPerDay + h * usecPerHour + m * usecPerMinute

/-- The `Vendor` entity of `PGVendorManager.py` (lines 19-68): identity,
currency state, reset anchor and categories.  `last_reset` is the
microsecond timestamp stored after `__init__` has coerced its input. -/
structure Vendor where
  name : String
  zone : String
  council_left : Int
  last_reset : Int
  reset_maximum : Int
  categories : List String
deriving DecidableEq

/-- `Vendor.next_reset` (lines 66-68): `last_reset + timedelta(days=7)`. -/
def Vendor.next_reset (v : Vendor) : Int :=
  v.last_reset + timedelta 7 0 0

/-! ### Decimal rendering of timestamps

`isoformat` renders a timestamp injectively as a decimal string;
`fromisoformat` is its exact inverse, failing on anything else.  This
models the exactness of Python's ISO-8601 round trip at microsecond
resolution without reproducing the calendar arithmetic. -/

/-- The character for a single decimal digit. -/
def digitToChar (d : Nat) : Char :=
  if d = 0 then '0' else if d = 1 then '1' else if d = 2 then '2'
  else if d = 3 then '3' else if d = 4 then '4' else if d = 5 then '5'
  else if d = 6 then '6' else if d = 7 then '7' else if d = 8 then '8'
  else '9'

/-- Inverse of `digitToChar`; `none` on a non-digit character. -/
def charToDigit (c : Char) : Option Nat :=
  if c = '0' then some 0 else if c = '1' then some 1
  else if c = '2' then some 2 else if c = '3' then some 3
  else if c = '4' then some 4 else if c = '5' then some 5
  else if c = '6' then some 6 else if c = '7' then some 7
  else if c = '8' then some 8 else if c = '9' then some 9
  else none

/-- Little-endian decimal digits of a natural number (`[]` for zero). -/
def natDigits (n : Nat) : List Nat :=
  if h : n = 0 then [] else n % 10 :: natDigits (n / 10)
termination_by n
decreasing_by exact Nat.div_lt_self (Nat.pos_of_ne_zero h) (by decide)

/-- Value of a little-endian digit list. -/
def ofDigits : List Nat → Nat
  | [] => 0
  | d :: ds => d + 10 * ofDigits ds

theorem ofDigits_natDigits (n : Nat) : ofDigits (natDigits n) = n := by
  induction n using Nat.strong_induction_on with
  | _ n ih =>
    rw [natDigits]
    split
    · simp [ofDigits]; omega
    · rename_i h
      rw [ofDigits, ih (n / 10) (Nat.div_lt_self (Nat.pos_of_ne_zero h) (by decide))]
      omega

theorem natDigits_lt (n : Nat) : ∀ d ∈ natDigits n, d < 10 := by
  induction n using Nat.strong_induction_on with
  | _ n ih =>
    rw [natDigits]
    split
    · simp
    · rename_i h
      intro d hd
      rcases List.mem_cons.mp hd with h1 | h2
      · omega
      · exact ih (n / 10) (Nat.div_lt_self (Nat.pos_of_ne_zero h) (by decide)) d h2

theorem natDigits_ne_nil (n : Nat) (h : n ≠ 0) : natDigits n ≠ [] := by
  rw [natDigits]
  simp [h]

theorem charToDigit_digitToChar : ∀ d : Nat, d < 10 → charToDigit (digitToChar d) = some d := by
  decide

theorem digitToChar_ne_dash (d : Nat) : digitToChar d ≠ '-' := by
  unfold digitToChar
  split_ifs <;> decide

/-- Parse a list of digit characters big-endian; `none` on a non-digit. -/
def parseDigits : List Char → Option (List Nat)
  | [] => some []
  | c :: cs =>
    match charToDigit c, parseDigits cs with
    | some d, some ds => some (d :: ds)
    | _, _ => none

theorem parseDigits_map (ds : List Nat) (h : ∀ d ∈ ds, d < 10) :
    parseDigits (ds.map digitToChar) = some ds := by
  induction ds with
  | nil => rfl
  | cons d ds ih =>
    have hd : d < 10 := h d (List.mem_cons_self d ds)
    have hds : ∀ x ∈ ds, x < 10 := fun x hx => h x (List.mem_cons_of_mem d hx)
    simp only [List.map_cons, parseDigits, charToDigit_digitToChar d hd, ih hds]

/-- `datetime.isoformat`, modelled as the injective decimal rendering of
the microsecond timestamp (see module docstring). -/
def isoformat (t : Int) : String :=
  if t < 0 then String.mk ('-' :: ((natDigits t.natAbs).reverse.map digitToChar))
  else if t = 0 then "0"
  else String.mk ((natDigits t.natAbs).reverse.map digitToChar)

/-- Character-list worker for `fromisoformat`. -/
def fromisoChars (cs : List Char) : Option Int :=
  match cs with
  | [] => none
  | c :: cs' =>
    if c = '-' then
      match parseDigits cs' with
      | some ds => if ds = [] then none else some (-(ofDigits ds.reverse : Int))
      | none => none
    else
      match parseDigits (c :: cs') with
      | some ds => some ((ofDigits ds.reverse : Nat) : Int)
      | none => none

/-- `datetime.fromisoformat`, the exact inverse of `isoformat` (see module
docstring); `none` models the `ValueError` raised on unparseable input. -/
def fromisoformat (s : String) : Option Int :=
  fromisoChars s.data

theorem fromisoChars_digits (ds : List Nat) (hne : ds ≠ []) (hlt : ∀ d ∈ ds, d < 10) :
    fromisoChars (ds.map digitToChar) = some ((ofDigits ds.reverse : Nat) : Int) := by
  cases ds with
  | nil => exact absurd rfl hne
  | cons d ds' =>
    have hd : d < 10 := hlt d (List.mem_cons_self d ds')
    simp only [List.map_cons, fromisoChars, digitToChar_ne_dash d, if_neg]
    rw [show (digitToChar d :: ds'.map digitToChar) = (d :: ds').map digitToChar from rfl,
      parseDigits_map (d :: ds') hlt]
    simp

theorem fromisoformat_isoformat (t : Int) : fromisoformat (isoformat t) = some t := by
  unfold isoformat fromisoformat
  split
  · rename_i hneg
    have hne : t.natAbs ≠ 0 := by omega
    show fromisoChars ('-' :: ((natDigits t.natAbs).reverse.map digitToChar)) = some t
    rw [fromisoChars]
    simp only [if_pos rfl]
    rw [parseDigits_map ((natDigits t.natAbs).reverse)
      (fun d hd => natDigits_lt t.natAbs d (List.mem_reverse.mp hd))]
    have hrne : (natDigits t.natAbs).reverse ≠ [] := by
      simp [natDigits_ne_nil t.natAbs hne]
    simp [hrne, ofDigits_natDigits, abs_of_neg hneg]
  · split
    · rename_i h0
      subst h0
      decide
    · rename_i hneg h0
      have hne : t.natAbs ≠ 0 := by omega
      show fromisoChars ((natDigits t.natAbs).reverse.map digitToChar) = some t
      rw [fromisoChars_digits ((natDigits t.natAbs).reverse)
        (by simp [natDigits_ne_nil t.natAbs hne])
        (fun d hd => natDigits_lt t.natAbs d (List.mem_reverse.mp hd))]
      rw [List.reverse_reverse, ofDigits_natDigits]
      congr 1
      omega

/-! ### The numeric-epoch fallback parser

`Vendor.__init__` falls back to `datetime.fromtimestamp(float(last_reset))`
when `fromisoformat` fails.  `float` is modelled as a decimal parser with
optional sign, digits and at most one decimal point; `fromtimestamp` scales
seconds to microseconds (fractional digits beyond microsecond resolution
are truncated). -/

/-- Longest digit prefix of a character list, with the remainder. -/
def takeDigits : List Char → List Nat × List Char
  | [] => ([], [])
  | c :: cs =>
    match charToDigit c with
    | some d => (d :: (takeDigits cs).1, (takeDigits cs).2)
    | none => ([], c :: cs)

/-- Value of a big-endian digit list. -/
def digitsVal (ds : List Nat) : Nat :=
  ds.foldl (fun a d => a * 10 + d) 0

/-- Microseconds contributed by the fractional digits of a float literal. -/
def fracMicros (ds : List Nat) : Nat :=
  digitsVal (ds.take 6) * 10 ^ (6 - (ds.take 6).length)

/-- Character-list worker for `parseFloat`. -/
def parseFloatChars (cs0 : List Char) : Option Int :=
  let neg : Bool := match cs0 with | '-' :: _ => true | _ => false
  let cs : List Char := match cs0 with | '-' :: r => r | _ => cs0
  let ip := takeDigits cs
  match ip.2 with
  | [] =>
    if ip.1 = [] then none
    else some ((if neg then -1 else 1) * (digitsVal ip.1 : Int) * 1000000)
  | '.' :: r2 =>
    let fp := takeDigits r2
    if fp.2 = [] then
      if ip.1 = [] ∧ fp.1 = [] then none
      else some ((if neg then -1 else 1) *
        ((digitsVal ip.1 : Int) * 1000000 + (fracMicros fp.1 : Int)))
    else none
  | _ => none

/-- `datetime.fromtimestamp(float(s))` as a microsecond timestamp; `none`
models the `ValueError`/`OverflowError` raised on unparseable input. -/
def parseFloat (s : String) : Option Int :=
  parseFloatChars s.data

/-- The runtime type of the `last_reset` argument handed to
`Vendor.__init__`: an ISO-like string, an already-constructed `datetime`,
or a value of any other type. -/
inductive LastResetInput where
  | str (s : String)
  | dt (t : Int)
  | other
deriving DecidableEq

/-- The `last_reset` coercion performed by `Vendor.__init__`
(`PGVendorManager.py` lines 26-40): parse an ISO string, fall back to a
numeric epoch, fall back to the current time `now`; a `datetime` is kept;
any other type falls back to `now`.  Total — construction never aborts. -/
def init_last_reset (input : LastResetInput) (now : Int) : Int :=
  match input with
  | .str s =>
    match fromisoformat s with
    | some t => t
    | none =>
      match parseFloat s with
      | some t => t
      | none => now
  | .dt t => t
  | .other => now

theorem init_last_reset_isoformat (t now : Int) :
    init_last_reset (.str (isoformat t)) now = t := by
  simp only [init_last_reset, fromisoformat_isoformat]

/-! ### Persistence model

The per-character record is JSON; `save_vendors` serialises the ordered
collection via `Vendor.to_dict` and `load_vendors` reads it back via
`Vendor.from_dict` with per-entry error recovery (`PGVendorManager.py`
lines 45-64 and 87-145).  The file system is abstracted to the record
content: `missing` (no file), `malformed` (bytes that fail JSON parsing or
an unreadable file) or a parsed JSON value.  Python runtime values that the
typed `Vendor` fields cannot hold (a numeric `name`, a truthy non-list
`categories`) make the modelled `from_dict` fail; no claim exercises
them. -/

/-- A parsed JSON value (the record shapes this program produces and
accepts: strings, integers, arrays, objects). -/
inductive JValue where
  | jstr (s : String)
  | jnum (n : Int)
  | jlist (l : List JValue)
  | jobj (fields : List (String × JValue))

/-- `dict.get` on a JSON object (keys are unique in a Python dict, so the
first match is the match). -/
def jget : List (String × JValue) → String → Option JValue
  | [], _ => none
  | (k', v) :: rest, k => if k' = k then some v else jget rest k

/-- Python truthiness of a JSON value. -/
def jTruthy : JValue → Bool
  | .jstr s => !(s = "")
  | .jnum n => !(n = 0)
  | .jlist l => !l.isEmpty
  | .jobj fields => !fields.isEmpty

/-- Python's `a or b` where `a` is an optional JSON value (`None` when the
key is absent): keeps `a` when present and truthy, else yields `b`. -/
def pyOrJ (a : Option JValue) (b : JValue) : JValue :=
  match a with
  | some v => if jTruthy v then v else b
  | none => b

/-- A JSON string, as required by the typed `name`/`zone` fields. -/
def asString : JValue → Option String
  | .jstr s => some s
  | _ => none

/-- Python `int(x)` on a JSON value: an integer is kept, a string is
parsed, anything else raises (`none`). -/
def pyInt : JValue → Option Int
  | .jnum n => some n
  | .jstr s => s.toInt?
  | _ => none

/-- Element-wise `asString` over a JSON array. -/
def asStringList : List JValue → Option (List String)
  | [] => some []
  | j :: js =>
    match asString j, asStringList js with
    | some s, some ss => some (s :: ss)
    | _, _ => none

/-- The `categories or []` coercion of `Vendor.__init__`: a falsy value
becomes `[]`; a truthy array must hold strings (see section comment). -/
def asCategories (j : JValue) : Option (List String) :=
  if jTruthy j then
    match j with
    | .jlist l => asStringList l
    | _ => none
  else some []

/-- The `last_reset` coercion seen from JSON: a string goes through the
`__init__` parse chain; any other JSON value is neither `str` nor
`datetime`, so `__init__` falls back to `now`. -/
def jLastReset (j : JValue) (now : Int) : Int :=
  match j with
  | .jstr s => init_last_reset (.str s) now
  | _ => now

/-- `Vendor.to_dict` (`PGVendorManager.py` lines 45-53). -/
def to_dict (v : Vendor) : JValue :=
  .jobj [("name", .jstr v.name),
         ("zone", .jstr v.zone),
         ("council_left", .jnum v.council_left),
         ("last_reset", .jstr (isoformat v.last_reset)),
         ("reset_maximum", .jnum v.reset_maximum),
         ("categories", .jlist (v.categories.map .jstr))]

/-- `Vendor.from_dict` followed by `Vendor.__init__`
(`PGVendorManager.py` lines 55-64 and 20-43), as used inside the per-entry
`try` of `load_vendors`: `none` models any exception (entry not an object,
`int()` failure).  `now` is the clock read for the defaulted or fallback
`last_reset`. -/
def from_dict (now : Int) (j : JValue) : Option Vendor :=
  match j with
  | .jobj fields =>
    (asString ((jget fields "name").getD (.jstr ""))).bind fun name =>
    (asString ((jget fields "zone").getD (.jstr ""))).bind fun zone =>
    (pyInt ((jget fields "council_left").getD (.jnum 0))).bind fun cl =>
    (pyInt ((jget fields "reset_maximum").getD (.jnum 0))).bind fun rm =>
    (asCategories ((jget fields "categories").getD (.jlist []))).bind fun cats =>
    some ⟨name, zone, cl,
      jLastReset ((jget fields "last_reset").getD (.jstr (isoformat now))) now,
      rm, cats⟩
  | _ => none

/-- `save_vendors` (`PGVendorManager.py` lines 87-97): the JSON document
written for the character, a bare list of vendor objects. -/
def save_vendors (vendors : List Vendor) : JValue :=
  .jlist (vendors.map to_dict)

/-- What `load_vendors` finds at the character's path. -/
inductive FileContent where
  | missing
  | malformed
  | wellFormed (j : JValue)

/-- `data.get("vendors") or data.get("vendor_list") or []`
(`PGVendorManager.py` line 125). -/
def vendorsBlob (fields : List (String × JValue)) : JValue :=
  pyOrJ (jget fields "vendors") (pyOrJ (jget fields "vendor_list") (.jlist []))

/-- `load_vendors` (`PGVendorManager.py` lines 99-145): a missing file
yields `[]`; a JSON or I/O error is caught and yields `[]`; a bare list or
a legacy object shape is read entry by entry, each failing entry skipped;
any other top-level shape yields `[]`. -/
def load_vendors (fc : FileContent) (now : Int) : List Vendor :=
  match fc with
  | .missing => []
  | .malformed => []
  | .wellFormed j =>
    match j with
    | .jlist entries => entries.filterMap (from_dict now)
    | .jobj fields =>
      match vendorsBlob fields with
      | .jlist entries => entries.filterMap (from_dict now)
      | _ => []
    | _ => []

theorem asStringList_map (l : List String) :
    asStringList (l.map JValue.jstr) = some l := by
  induction l with
  | nil => rfl
  | cons a l ih => simp only [List.map_cons, asStringList, asString, ih]

theorem asCategories_map (l : List String) :
    asCategories (.jlist (l.map .jstr)) = some l := by
  cases l with
  | nil => rfl
  | cons a l => exact asStringList_map (a :: l)

theorem from_dict_to_dict (now : Int) (v : Vendor) :
    from_dict now (to_dict v) = some v := by
  obtain ⟨n, z, c, lr, rm, cats⟩ := v
  have h1 : asCategories (.jlist (cats.map .jstr)) = some cats := asCategories_map cats
  have h2 : init_last_reset (.str (isoformat lr)) now = lr := init_last_reset_isoformat lr now
  show ((asCategories (JValue.jlist (cats.map JValue.jstr))).bind fun cs =>
      some (Vendor.mk n z c (init_last_reset (.str (isoformat lr)) now) rm cs))
    = some (Vendor.mk n z c lr rm cats)
  rw [h1, h2]
  rfl

/-! ### Time-input normalisation -/

/-- `MAX_TOTAL_MINUTES` (`PGVendorManager.py` line 14): 6 days 23 hours
59 minutes expressed in minutes. -/
def MAX_TOTAL_MINUTES : Int := 6 * 24 * 60 + 23 * 60 + 59

/-- `_clamp_reset_inputs` (`PGVendorManager.py` lines 166-185) on integer
inputs.  Without override the total is clamped to `MAX_TOTAL_MINUTES` and
re-expressed canonically by `divmod`; with override only hours and minutes
are capped.  The `int()`-parse-failure path that returns `(0, 0, 0)` on
non-numeric UI strings is prior to this arithmetic and is not modelled. -/
def clamp_reset_inputs (days hours minutes : Int) (override_max_time : Bool) :
    Int × Int × Int :=
  let d := max 0 days
  let h := max 0 hours
  let m := max 0 minutes
  if override_max_time = false then
    let total0 := d * 24 * 60 + h * 60 + m
    let total := if total0 > MAX_TOTAL_MINUTES then MAX_TOTAL_MINUTES else total0
    let d2 := total / (24 * 60)
    let remainder := total % (24 * 60)
    (d2, remainder / 60, remainder % 60)
  else
    (d, min h 23, min m 59)

/-- Total minutes of a clamped `(days, hours, minutes)` triple. -/
def totalMinutesOf (p : Int × Int × Int) : Int :=
  p.1 * 24 * 60 + p.2.1 * 60 + p.2.2

/-- `calculate_last_reset` (`PGVendorManager.py` lines 187-197): place the
last reset relative to `now` (the `datetime.now()` read) so that the
clamped `(d, h, m)` remains until the next 7-day boundary; the override
branch uses the algebraically equal form allowing more than 7 days. -/
def calculate_last_reset (now days hours minutes : Int)
    (override_max_time : Bool) : Int :=
  let c := clamp_reset_inputs days hours minutes override_max_time
  let time_until_reset := timedelta c.1 c.2.1 c.2.2
  if override_max_time = false then
    let time_since_last_reset := timedelta 7 0 0 - time_until_reset
    now - time_since_last_reset
  else
    now + time_until_reset - timedelta 7 0 0

/-! ### Clustering -/

/-- Loop of `_group_vendors_by_reset_time` (`PGVendorManager.py` lines
415-423): `prev` is the previous element of the walk, `current` the
cluster being extended; a gap strictly above `THRESH = timedelta(hours=1)`
closes the current cluster.  The trailing `if current` append always fires
because `current` is never empty. -/
def groupGo (prev : Vendor) (current : List Vendor) :
    List Vendor → List (List Vendor)
  | [] => [current]
  | v :: vs =>
    if v.next_reset - prev.next_reset > usecPerHour then
      current :: groupGo v [v] vs
    else
      groupGo v (current ++ [v]) vs

/-- `_group_vendors_by_reset_time` (`PGVendorManager.py` lines 409-424;
identical in `vendor_tracker7.py` lines 292-315). -/
def group_vendors_by_reset_time : List Vendor → List (List Vendor)
  | [] => []
  | v :: vs => groupGo v [v] vs

/-- Modelled from the spec: "Walk the sorted sequence; start a new cluster
whenever the gap between consecutive vendors' `nextReset` exceeds a fixed
threshold of 1 hour; otherwise extend the current cluster.  Empty input
yields an empty sequence of clusters; a single vendor yields one singleton
cluster."  Stated as a recursion to be compared with the source
function. -/
def groupByResetProximity : List Vendor → List (List Vendor)
  | [] => []
  | [v] => [[v]]
  | a :: b :: rest =>
    if b.next_reset - a.next_reset > usecPerHour then
      [a] :: groupByResetProximity (b :: rest)
    else
      match groupByResetProximity (b :: rest) with
      | [] => [[a]]
      | c :: cs => (a :: c) :: cs

theorem groupGo_ne_nil (vs : List Vendor) (prev : Vendor) (current : List Vendor) :
    groupGo prev current vs ≠ [] := by
  induction vs generalizing prev current with
  | nil => simp [groupGo]
  | cons v vs ih =>
    rw [groupGo]
    split
    · simp
    · exact ih v (current ++ [v])

theorem groupGo_join (vs : List Vendor) (prev : Vendor) (current : List Vendor) :
    (groupGo prev current vs).flatten = current ++ vs := by
  induction vs generalizing prev current with
  | nil => simp [groupGo]
  | cons v vs ih =>
    rw [groupGo]
    split
    · simp [ih]
    · simp [ih]

theorem groupGo_split (vs : List Vendor) (v : Vendor) (cur1 cur2 : List Vendor) :
    groupGo v (cur1 ++ cur2) vs =
      (cur1 ++ (groupGo v cur2 vs).headD []) :: (groupGo v cur2 vs).tail := by
  induction vs generalizing v cur2 with
  | nil => simp [groupGo]
  | cons w ws ih =>
    rw [groupGo, groupGo]
    split
    · simp
    · rw [List.append_assoc cur1 cur2 [w]]
      exact ih w (cur2 ++ [w])

theorem group_eq_spec (l : List Vendor) :
    group_vendors_by_reset_time l = groupByResetProximity l := by
  induction l with
  | nil => rfl
  | cons a tl ih =>
    cases tl with
    | nil => rfl
    | cons b rest =>
      show groupGo a [a] (b :: rest) = groupByResetProximity (a :: b :: rest)
      rw [groupGo, groupByResetProximity]
      split
      · rw [← ih]
        rfl
      · rw [show ([a] ++ [b] : List Vendor) = [a] ++ [b] from rfl,
          groupGo_split rest b [a] [b]]
        have hb : groupGo b [b] rest = groupByResetProximity (b :: rest) := ih
        rw [hb]
        obtain ⟨c, cs, hcs⟩ :
            ∃ c cs, groupByResetProximity (b :: rest) = c :: cs := by
          rcases hg : groupByResetProximity (b :: rest) with _ | ⟨c, cs⟩
          · exact absurd (hb.trans hg) (groupGo_ne_nil rest b [b])
          · exact ⟨c, cs, rfl⟩
        rw [hcs]
        rfl

/-! ### Collection mutation and manual reset -/

/-- The collection mutation of `add_and_save` (`PGVendorManager.py` line
620): `self.vendors.append(new_vendor)` — an unconditional append. -/
def add_vendor (vendors : List Vendor) (v : Vendor) : List Vendor :=
  vendors ++ [v]

/-- The collection mutation of `delete_vendor` (`PGVendorManager.py` line
492): keep every vendor whose name differs from the deleted one's. -/
def delete_vendor (vendors : List Vendor) (name : String) : List Vendor :=
  vendors.filter (fun v => !(v.name == name))

/-- `reset_now` (`PGVendorManager.py` lines 716-729): set
`last_reset = datetime.now()` and, when `reset_maximum > 0`, refill
`council_left` to `reset_maximum`. -/
def reset_now (v : Vendor) (now : Int) : Vendor :=
  { v with
    last_reset := now,
    council_left := if v.reset_maximum > 0 then v.reset_maximum else v.council_left }

/-! ### Concrete test data -/

/-- Four vendors whose `next_reset` values are `t`, `t + 30min`,
`t + 2h`, `t + 2h10min` (the spec's clustering example). -/
def w0 : Vendor := ⟨"w0", "z", 0, 0, 0, []⟩

/-- Second vendor of the clustering example (30 minutes after `w0`). -/
def w1 : Vendor := ⟨"w1", "z", 0, 1800000000, 0, []⟩

/-- Third vendor of the clustering example (2 hours after `w0`). -/
def w2 : Vendor := ⟨"w2", "z", 0, 7200000000, 0, []⟩

/-- Fourth vendor of the clustering example (2 hours 10 minutes after
`w0`). -/
def w3 : Vendor := ⟨"w3", "z", 0, 7800000000, 0, []⟩

/-- A vendor named "A" in zone "Z1". -/
def vA : Vendor := ⟨"A", "Z1", 1, 0, 0, []⟩

/-- A second, distinct vendor also named "A" (zone "Z2"). -/
def vA2 : Vendor := ⟨"A", "Z2", 2, 0, 0, []⟩

/-- A vendor with `reset_maximum = 5000` and `council_left = 0`. -/
def vR : Vendor := ⟨"R", "Z", 0, 0, 5000, []⟩

/-! ### Claims -/

/-- C1: `_group_vendors_by_reset_time` equals the spec's walk — a new
cluster starts exactly when the gap between consecutive vendors'
`next_reset` strictly exceeds 1 hour, otherwise the current cluster is
extended; the empty input gives no clusters, a single vendor gives one
singleton cluster, and `next_reset` values `[t, t+30m, t+2h, t+2h10m]`
give clusters `[[w0, w1], [w2, w3]]`. -/
theorem claim1_group_by_reset_proximity :
    (∀ l, group_vendors_by_reset_time l = groupByResetProximity l)
    ∧ group_vendors_by_reset_time [] = []
    ∧ (∀ v, group_vendors_by_reset_time [v] = [[v]])
    ∧ group_vendors_by_reset_time [w0, w1, w2, w3] = [[w0, w1], [w2, w3]] := by
  refine ⟨group_eq_spec, rfl, fun v => rfl, ?_⟩
  decide

/-- C10: the clusters returned by `_group_vendors_by_reset_time`
concatenate, in order, to exactly the input sequence — no vendor is
dropped or duplicated and relative order is preserved, for every input
list whatever its gap pattern. -/
theorem claim10_clusters_partition_input (l : List Vendor) :
    (group_vendors_by_reset_time l).flatten = l := by
  cases l with
  | nil => rfl
  | cons v vs => exact groupGo_join vs v [v]

/-- C2, counterexample: the claim puts the no-override ceiling at 9959
minutes, but `MAX_TOTAL_MINUTES` is 6d 23h 59m = 10079 minutes; the input
`(6, 23, 59)` is not clamped and its total, 10079, exceeds 9959. -/
theorem claim2_counterexample :
    clamp_reset_inputs 6 23 59 false = (6, 23, 59)
    ∧ ¬ totalMinutesOf (clamp_reset_inputs 6 23 59 false) ≤ 9959 := by
  constructor
  · decide
  · decide

/-- C2, amended: for non-negative integer triples with override off,
`_clamp_reset_inputs` clamps the total to at most 10079 minutes
(= 6 days 23 hours 59 minutes, not 9959), never increases it, and keeps
it exactly when the input total is within the ceiling. -/
theorem claim2_normalize_clamps_total (d h m : Nat) :
    0 ≤ totalMinutesOf (clamp_reset_inputs d h m false)
    ∧ totalMinutesOf (clamp_reset_inputs d h m false) ≤ 10079
    ∧ totalMinutesOf (clamp_reset_inputs d h m false) ≤ (d : Int) * 1440 + h * 60 + m
    ∧ ((d : Int) * 1440 + h * 60 + m ≤ 10079 →
        totalMinutesOf (clamp_reset_inputs d h m false) = (d : Int) * 1440 + h * 60 + m) := by
  have hd : max 0 ((d : Nat) : Int) = (d : Nat) := max_eq_right (Int.natCast_nonneg d)
  have hh : max 0 ((h : Nat) : Int) = (h : Nat) := max_eq_right (Int.natCast_nonneg h)
  have hm : max 0 ((m : Nat) : Int) = (m : Nat) := max_eq_right (Int.natCast_nonneg m)
  simp only [clamp_reset_inputs, totalMinutesOf, MAX_TOTAL_MINUTES, hd, hh, hm]
  norm_num
  split_ifs with hc
  · refine ⟨by omega, by omega, by omega, fun hle => by omega⟩
  · refine ⟨by omega, by omega, by omega, fun hle => by omega⟩

/-- C2, witness: at `(6, 23, 59)` the input total 10079 is within the
ceiling and is reproduced exactly. -/
theorem claim2_witness :
    ((6 : Nat) : Int) * 1440 + ((23 : Nat) : Int) * 60 + ((59 : Nat) : Int) ≤ 10079
    ∧ totalMinutesOf (clamp_reset_inputs ((6 : Nat) : Int) ((23 : Nat) : Int) ((59 : Nat) : Int) false)
      = ((6 : Nat) : Int) * 1440 + ((23 : Nat) : Int) * 60 + ((59 : Nat) : Int) :=
  ⟨by decide, (claim2_normalize_clamps_total 6 23 59).2.2.2 (by decide)⟩

/-- C3: `calculate_last_reset` followed by `next_reset = last_reset + 7d`
reproduces the normalized time-until-reset exactly: for every input and
either override setting, `next_reset − now` equals the `timedelta` of the
clamped `(d, h, m)` triple. -/
theorem claim3_last_reset_roundtrip (now d h m : Int) (o : Bool)
    (name zone : String) (cl rm : Int) (cats : List String) :
    Vendor.next_reset ⟨name, zone, cl, calculate_last_reset now d h m o, rm, cats⟩ - now
      = timedelta (clamp_reset_inputs d h m o).1
          (clamp_reset_inputs d h m o).2.1 (clamp_reset_inputs d h m o).2.2 := by
  unfold Vendor.next_reset calculate_last_reset timedelta usecPerDay usecPerHour usecPerMinute
  cases o
  · simp
    ring
  · simp

/-- C4: `save_vendors` then `load_vendors` of a non-empty collection
reproduces the collection exactly — same length, same `name`, `zone`,
`council_left`, `reset_maximum` and `categories` element by element, and
`last_reset` equal (hence equal to second-level precision); the character
identifier only selects the file and does not affect the content. -/
theorem claim4_save_load_roundtrip (vendors : List Vendor) (now : Int)
    (_hne : vendors ≠ []) :
    load_vendors (.wellFormed (save_vendors vendors)) now = vendors := by
  clear _hne
  show (vendors.map to_dict).filterMap (from_dict now) = vendors
  induction vendors with
  | nil => rfl
  | cons v vs ih =>
    simp only [List.map_cons, List.filterMap_cons, from_dict_to_dict, ih]

/-- C4, witness: round trip of the one-vendor collection `[w0]`. -/
theorem claim4_witness :
    ([w0] : List Vendor) ≠ []
    ∧ load_vendors (.wellFormed (save_vendors [w0])) 0 = [w0] :=
  ⟨by decide, claim4_save_load_roundtrip [w0] 0 (by decide)⟩

/-- C5: `load_vendors` never fails as a whole — a missing record and a
malformed top-level record both degrade to the empty collection, and in a
well-formed record a malformed vendor entry is skipped individually: one
good entry next to one bad entry loads as exactly the good vendor. -/
theorem claim5_load_error_recovery (now : Int) :
    load_vendors .missing now = []
    ∧ load_vendors .malformed now = []
    ∧ load_vendors (.wellFormed (.jlist [to_dict w0, .jstr "oops"])) now = [w0] := by
  refine ⟨rfl, rfl, ?_⟩
  have hbad : from_dict now (JValue.jstr "oops") = none := rfl
  show List.filterMap (from_dict now) [to_dict w0, .jstr "oops"] = [w0]
  simp only [List.filterMap_cons, from_dict_to_dict, hbad, List.filterMap_nil]

/-- C6: `Vendor.__init__` never aborts on any `last_reset` input — an
ISO-unparseable string falls back to the numeric-epoch interpretation,
a string failing both parses falls back to the current time, a value that
is neither string nor datetime falls back to the current time, and a
datetime is kept; the stored value is always a valid timestamp. -/
theorem claim6_construction_never_aborts (s1 s2 : String) (e now t : Int)
    (h1 : fromisoformat s1 = none) (h2 : parseFloat s1 = some e)
    (h3 : fromisoformat s2 = none) (h4 : parseFloat s2 = none) :
    init_last_reset (.str s1) now = e
    ∧ init_last_reset (.str s2) now = now
    ∧ init_last_reset .other now = now
    ∧ init_last_reset (.dt t) now = t := by
  refine ⟨?_, ?_, rfl, rfl⟩
  · simp only [init_last_reset, h1, h2]
  · simp only [init_last_reset, h3, h4]

/-- C6, witness: "1.5" fails the ISO parse and lands on the epoch
fallback; "zz" fails both parses and lands on `now`. -/
theorem claim6_witness :
    fromisoformat "1.5" = none ∧ parseFloat "1.5" = some 1500000
    ∧ fromisoformat "zz" = none ∧ parseFloat "zz" = none
    ∧ init_last_reset (.str "1.5") 7 = 1500000
    ∧ init_last_reset (.str "zz") 7 = 7
    ∧ init_last_reset .other 7 = 7
    ∧ init_last_reset (.dt 9) 7 = 9 := by
  have h := claim6_construction_never_aborts "1.5" "zz" 1500000 7 9
    (by decide) (by decide) (by decide) (by decide)
  exact ⟨by decide, by decide, by decide, by decide, h.1, h.2.1, h.2.2.1, h.2.2.2⟩

/-- C7, counterexample: `add_and_save` appends unconditionally, so adding
a vendor whose name collides with an existing one yields two coexisting
vendors named "A" — the collection is not keyed by name and no
replacement happens. -/
theorem claim7_counterexample :
    (add_vendor [vA] vA2).length = 2
    ∧ ((add_vendor [vA] vA2).filter (fun v => v.name == "A")).length = 2 := by
  constructor
  · decide
  · decide

/-- C7, amended: vendor name is not enforced unique — adding a vendor
appends it unconditionally, so the number of vendors bearing a name grows
by one when a vendor with that name is added (duplicates coexist; no
last-write-wins replacement), while deletion removes every vendor bearing
the given name and keeps all others. -/
theorem claim7_add_appends_delete_filters (l : List Vendor) (v : Vendor) (n : String) :
    ((add_vendor l v).filter (fun w => w.name == n)).length
      = (l.filter (fun w => w.name == n)).length + (if v.name = n then 1 else 0)
    ∧ (∀ w ∈ delete_vendor l n, w.name ≠ n)
    ∧ (∀ w ∈ l, w.name ≠ n → w ∈ delete_vendor l n) := by
  refine ⟨?_, ?_, ?_⟩
  · by_cases hv : v.name = n
    · simp [add_vendor, List.filter_append, List.filter, hv]
    · have hb : (v.name == n) = false := by simp [hv]
      simp [add_vendor, List.filter_append, List.filter, hv, hb]
  · intro w hw
    rw [delete_vendor, List.mem_filter] at hw
    simpa using hw.2
  · intro w hw hne
    rw [delete_vendor, List.mem_filter]
    exact ⟨hw, by simpa using hne⟩

/-- C7, witness: after adding the colliding vendor the count of vendors
named "A" is 1 + 1 = 2. -/
theorem claim7_witness :
    ((add_vendor [vA] vA2).filter (fun w => w.name == "A")).length = 2 :=
  ((claim7_add_appends_delete_filters [vA] vA2 "A").1).trans (by decide)

/-- C8: with override on, `_clamp_reset_inputs` leaves days unclamped,
caps hours at 23 and minutes at 59 independently, and performs no
carry-over between fields; in particular hours = 30 becomes 23 with the
days field unchanged. -/
theorem claim8_override_caps_fields (d h m : Nat) :
    clamp_reset_inputs d h m true
      = ((d : Int), ((min h 23 : Nat) : Int), ((min m 59 : Nat) : Int))
    ∧ clamp_reset_inputs 2 30 5 true = (2, 23, 5) := by
  constructor
  · have hd : max 0 ((d : Nat) : Int) = (d : Nat) := max_eq_right (Int.natCast_nonneg d)
    have hh : max 0 ((h : Nat) : Int) = (h : Nat) := max_eq_right (Int.natCast_nonneg h)
    have hm : max 0 ((m : Nat) : Int) = (m : Nat) := max_eq_right (Int.natCast_nonneg m)
    simp only [clamp_reset_inputs, hd, hh, hm, Prod.mk.injEq]
    norm_num
  · decide

/-- C9: `reset_now` sets `last_reset` to the invocation time and refills
`council_left` to `reset_maximum` exactly when `reset_maximum > 0`; a
vendor without a positive maximum keeps its current `council_left`. -/
theorem claim9_reset_now (v : Vendor) (now : Int) :
    (reset_now v now).last_reset = now
    ∧ (v.reset_maximum > 0 → (reset_now v now).council_left = v.reset_maximum)
    ∧ (¬ v.reset_maximum > 0 → (reset_now v now).council_left = v.council_left) := by
  refine ⟨rfl, fun hpos => ?_, fun hnp => ?_⟩
  · simp [reset_now, hpos]
  · simp [reset_now, hnp]

/-- C9, witness: a vendor with `reset_maximum = 5000` and
`council_left = 0` ends with `council_left = 5000` and `last_reset` equal
to the invocation time. -/
theorem claim9_witness :
    vR.reset_maximum > 0
    ∧ (reset_now vR 123).last_reset = 123
    ∧ (reset_now vR 123).council_left = 5000 := by
  have h := claim9_reset_now vR 123
  exact ⟨by decide, h.1, h.2.1 (by decide)⟩
